import Mathlib

/-!
Shallow embedding of `src/vocab/__init__.py` (the `enlearn` vocabulary
tracker's scheduling core) and proofs about it.

Modelling conventions:
* A persisted record is a Python `dict` loaded from JSON; we model it as an
  association list `Entry` from field names to dynamically typed values
  (`Val`: a string or an integer — the two kinds of scalar the claims
  exercise).  `lookupVal`/`setVal` model `entry[k]` reads and writes,
  `hasKey` models `k in entry`.
* Python functions that can raise an uncaught exception (`TypeError` on a
  wrongly typed field, say) are modelled with `Option`: `none` is an
  exception escaping the function.
* Calendar dates are proleptic-Gregorian triples, exactly as in CPython's
  `datetime.date`; `toOrdinal`/`fromOrdinal` are `date.toordinal` /
  `date.fromordinal`, `parseDate` is `datetime.strptime(s, "%Y-%m-%d")`
  restricted to ASCII digits, and `formatDate` is `strftime("%Y-%m-%d")`.
* Python's `sorted`/`list.sort` is a stable sort; on a total preorder a
  stable sort's output is uniquely determined, so `List.insertionSort`
  (which is stable) computes the same list.
-/

namespace Enlearn

/-- A dynamically typed JSON scalar stored in an entry field. -/
inductive Val where
  | vstr : String → Val
  | vint : Int → Val
deriving DecidableEq

/-- A persisted vocabulary record: a Python dict as an association list. -/
abbrev Entry := List (String × Val)

/-- `entry.get(k)` / `entry[k]` — the value under a key, if present. -/
def lookupVal : Entry → String → Option Val
  | [], _ => none
  | (k, v) :: rest, key => if k = key then some v else lookupVal rest key

/-- `k in entry`. -/
def hasKey (e : Entry) (k : String) : Bool := (lookupVal e k).isSome

/-- `entry[k] = v`: replace the value under an existing key in place,
otherwise append the new key (Python dicts keep insertion order). -/
def setVal : Entry → String → Val → Entry
  | [], key, v => [(key, v)]
  | (k, w) :: rest, key, v =>
    if k = key then (key, v) :: rest else (k, w) :: setVal rest key v

/-! ### Calendar dates (CPython `datetime.date`) -/

/-- A proleptic-Gregorian calendar date. -/
structure Date where
  year : Nat
  month : Nat
  day : Nat
deriving DecidableEq

/-- CPython `_is_leap`. -/
def isLeapYear (y : Nat) : Bool :=
  y % 4 == 0 && (y % 100 != 0 || y % 400 == 0)

/-- CPython `_days_in_month`. -/
def daysInMonth (y m : Nat) : Nat :=
  if m = 2 then (if isLeapYear y then 29 else 28)
  else if m = 4 ∨ m = 6 ∨ m = 9 ∨ m = 11 then 30
  else 31

/-- CPython `_days_before_month`: days in the year before month `m`. -/
def daysBeforeMonth (y m : Nat) : Nat :=
  (List.range (m - 1)).foldl (fun acc i => acc + daysInMonth y (i + 1)) 0

/-- CPython `_days_before_year`: days before January 1st of year `y`. -/
def daysBeforeYear (y : Nat) : Nat :=
  (y - 1) * 365 + (y - 1) / 4 + (y - 1) / 400 - (y - 1) / 100

/-- `date.toordinal()`: day 1 is 0001-01-01. -/
def toOrdinal (d : Date) : Nat :=
  daysBeforeYear d.year + daysBeforeMonth d.year d.month + d.day

/-- `date.fromordinal(n)`, CPython's `_ord2ymd`. -/
def fromOrdinal (ordinal : Nat) : Date :=
  let n := ordinal - 1
  let n400 := n / 146097
  let n := n % 146097
  let year0 := n400 * 400 + 1
  let n100 := n / 36524
  let n := n % 36524
  let n4 := n / 1461
  let n := n % 1461
  let n1 := n / 365
  let n := n % 365
  let year := year0 + n100 * 100 + n4 * 4 + n1
  if n1 = 4 ∨ n100 = 4 then
    ⟨year - 1, 12, 31⟩
  else
    let month := (n + 50) / 32
    let preceding := daysBeforeMonth year month
    if preceding > n then
      ⟨year, month - 1, n - (preceding - daysInMonth year (month - 1)) + 1⟩
    else
      ⟨year, month, n - preceding + 1⟩

/-- `d + timedelta(days=k)`. -/
def addDays (d : Date) (k : Int) : Date :=
  fromOrdinal ((toOrdinal d : Int) + k).toNat

/-- Left-pad the decimal digits of `n` with zeros to width `w`. -/
def padZeros (w n : Nat) : String :=
  let s := toString n
  String.mk (List.replicate (w - s.length) '0') ++ s

/-- `d.strftime("%Y-%m-%d")`. -/
def formatDate (d : Date) : String :=
  padZeros 4 d.year ++ "-" ++ padZeros 2 d.month ++ "-" ++ padZeros 2 d.day

/-- Python `date` comparison: lexicographic on (year, month, day). -/
def dateLe (a b : Date) : Prop :=
  a.year < b.year ∨ (a.year = b.year ∧
    (a.month < b.month ∨ (a.month = b.month ∧ a.day ≤ b.day)))

instance : DecidableRel dateLe := fun a b => by unfold dateLe; infer_instance

/-- An ASCII decimal digit (the `\d` of `strptime`'s regex, restricted to
ASCII; Unicode digit classes are outside this model's scope). -/
def isDigitChar (c : Char) : Bool :=
  48 ≤ c.toNat && c.toNat ≤ 57

/-- Value of a list of decimal digits. -/
def digitsToNat (cs : List Char) : Nat :=
  cs.foldl (fun acc c => acc * 10 + (c.toNat - 48)) 0

/-- Split a character list on `-`, like `str.split("-")`. -/
def splitDash : List Char → List (List Char)
  | [] => [[]]
  | c :: rest =>
    let r := splitDash rest
    if c = '-' then [] :: r
    else
      match r with
      | [] => [[c]]
      | p :: ps => (c :: p) :: ps

/-- `datetime.strptime(s, "%Y-%m-%d")`: `%Y` is exactly four digits, `%m`
one or two digits in 1..12, `%d` one or two digits, the whole string must
match, and the `datetime` constructor then validates the day against the
month length and rejects year 0. -/
def parseDate (s : String) : Option Date :=
  match splitDash s.data with
  | [ys, ms, ds] =>
    if ys.length == 4 && ys.all isDigitChar
        && (ms.length == 1 || ms.length == 2) && ms.all isDigitChar
        && (ds.length == 1 || ds.length == 2) && ds.all isDigitChar then
      let y := digitsToNat ys
      let m := digitsToNat ms
      let d := digitsToNat ds
      if 1 ≤ y && 1 ≤ m && m ≤ 12 && 1 ≤ d && d ≤ daysInMonth y m then
        some ⟨y, m, d⟩
      else none
    else none
  | _ => none

/-! ### `normalize_entries` -/

/-- One `if "k" not in entry: entry["k"] = default; changed = True` step of
`normalize_entries` (the default may read the entry, as `next_review`'s
does). -/
def ensureField (k : String) (dflt : Entry → Val) (st : Entry × Bool) : Entry × Bool :=
  if hasKey st.1 k then st else (setVal st.1 k (dflt st.1), true)

/-- The body of `normalize_entries`' loop for one entry: fill the seven
schema fields in source order.  `gid` is the `uuid.uuid4()` value this
iteration would draw, `today` is `datetime.utcnow().strftime(DATE_FMT)`.
The `next_review` default reads `entry["created_at"]`; that key is always
present by then (ensured two steps earlier), so the `.getD` fallback is
unreachable. -/
def normalizeEntry (gid : String) (today : String) (e : Entry) : Entry × Bool :=
  ensureField "review_count" (fun _ => .vint 0) <|
  ensureField "next_review" (fun e1 => (lookupVal e1 "created_at").getD (.vstr today)) <|
  ensureField "context" (fun _ => .vstr "") <|
  ensureField "success_streak" (fun _ => .vint 0) <|
  ensureField "interval_days" (fun _ => .vint 1) <|
  ensureField "created_at" (fun _ => .vstr today) <|
  ensureField "id" (fun _ => .vstr gid) (e, false)

/-- The loop of `normalize_entries`, threading the supply of fresh uuids:
`ids i` is the `i`-th `uuid.uuid4()` drawn, `n` counts the draws so far. -/
def normalizeGo (ids : Nat → String) (today : String) (n : Nat) :
    List Entry → List Entry × Bool × Nat
  | [] => ([], false, n)
  | e :: rest =>
    let st := normalizeEntry (ids n) today e
    let n1 := if hasKey e "id" then n else n + 1
    let r := normalizeGo ids today n1 rest
    (st.1 :: r.1, st.2 || r.2.1, r.2.2)

/-- `normalize_entries(entries)`: repair every record in place, return
whether anything was modified. -/
def normalize_entries (ids : Nat → String) (today : String) (entries : List Entry) :
    List Entry × Bool :=
  let r := normalizeGo ids today 0 entries
  (r.1, r.2.1)

/-! ### `sort_entries` -/

/-- A Python whitespace character (`int()` strips these). -/
def isSpaceChar (c : Char) : Bool :=
  c = ' ' || c = '\t' || c = '\n' || c = '\r'

/-- Python `int(s)` on a string: optional surrounding whitespace, optional
sign, then decimal digits; anything else raises `ValueError` (`none`). -/
def pyIntOfStr (s : String) : Option Int :=
  let cs := ((s.data.dropWhile isSpaceChar).reverse.dropWhile isSpaceChar).reverse
  let core : List Char → Option Int := fun ds =>
    if !ds.isEmpty && ds.all isDigitChar then some (digitsToNat ds : Int) else none
  match cs with
  | '+' :: ds => core ds
  | '-' :: ds => (core ds).map (fun n => -n)
  | ds => core ds

/-- `_review_count`: `int(entry.get("review_count", 0))`, 0 on
`TypeError`/`ValueError`. -/
def review_count_key (e : Entry) : Int :=
  match lookupVal e "review_count" with
  | none => 0
  | some (.vint n) => n
  | some (.vstr s) => (pyIntOfStr s).getD 0

/-- `_created_at_order`: negative ordinal of the parsed `created_at`;
non-strings and unparseable strings become `datetime.min`, whose ordinal
is 1. -/
def created_at_order (e : Entry) : Int :=
  match lookupVal e "created_at" with
  | some (.vstr s) =>
    match parseDate s with
    | some d => -(toOrdinal d : Int)
    | none => -1
  | _ => -1

/-- `_word_key`: the word if it is a string, else `""`. -/
def word_key (e : Entry) : String :=
  match lookupVal e "word" with
  | some (.vstr w) => w
  | _ => ""

/-- The 3-tuple sort key of `sort_entries`. -/
def sortKey (e : Entry) : Int × Int × String :=
  (review_count_key e, created_at_order e, word_key e)

/-- Python tuple comparison `a <= b`: lexicographic. -/
def tupLe (a b : Int × Int × String) : Prop :=
  a.1 < b.1 ∨ (a.1 = b.1 ∧
    (a.2.1 < b.2.1 ∨ (a.2.1 = b.2.1 ∧ a.2.2 ≤ b.2.2)))

instance : DecidableRel tupLe := fun a b => by unfold tupLe; infer_instance

/-- The entry ordering `sorted(entries, key=...)` uses. -/
def entryLe (a b : Entry) : Prop := tupLe (sortKey a) (sortKey b)

instance : DecidableRel entryLe := fun a b => by unfold entryLe; infer_instance

/-- `sort_entries(entries)`: a stable ascending sort by `sortKey`. -/
def sort_entries (entries : List Entry) : List Entry :=
  List.insertionSort entryLe entries

/-! ### `get_due_entries` -/

/-- The `try: ... strptime(entry["next_review"], DATE_FMT) ... except
(KeyError, ValueError): next_review = as_of_date` step.  A missing key or
an unparseable string falls back to `asOf`; a non-string value raises an
uncaught `TypeError` (`none`). -/
def nextReviewDate (e : Entry) (asOf : Date) : Option Date :=
  match lookupVal e "next_review" with
  | none => some asOf
  | some (.vstr s) =>
    match parseDate s with
    | some d => some d
    | none => some asOf
  | some (.vint _) => none

/-- The effective `next_review` date a non-crashing entry contributes. -/
def effDate (e : Entry) (asOf : Date) : Date :=
  match lookupVal e "next_review" with
  | some (.vstr s) => (parseDate s).getD asOf
  | _ => asOf

/-- The loop of `get_due_entries`: collect `(entry, next_review)` pairs for
the due entries. -/
def dueAux (asOf : Date) : List Entry → Option (List (Entry × Date))
  | [] => some []
  | e :: rest => do
    let d ← nextReviewDate e asOf
    let tail ← dueAux asOf rest
    pure (if dateLe d asOf then (e, d) :: tail else tail)

/-- The ordering `due_entries.sort(key=lambda item: item[1])` uses. -/
def pairLe (p q : Entry × Date) : Prop := dateLe p.2 q.2

instance : DecidableRel pairLe := fun p q => by unfold pairLe; infer_instance

/-- `get_due_entries(entries, as_of)`: the due entries sorted ascending by
their effective `next_review` date (`none`: a `TypeError` escaped). -/
def get_due_entries (entries : List Entry) (asOf : Date) : Option (List Entry) :=
  (dueAux asOf entries).map fun ps => (List.insertionSort pairLe ps).map Prod.fst

/-! ### `update_review_state` -/

/-- `entry.get(k, dflt)` read as an integer; a present string value makes
the arithmetic that follows raise `TypeError` (`none`). -/
def getIntField (e : Entry) (k : String) (dflt : Int) : Option Int :=
  match lookupVal e k with
  | none => some dflt
  | some (.vint n) => some n
  | some (.vstr _) => none

/-- `update_review_state(entry, remembered, today)`.  Mutates the entry:
on success the streak grows and the interval doubles clamped to [1, 30];
on failure both reset; always `next_review = today + new interval` and
`review_count += 1`.  `none` models an uncaught exception. -/
def update_review_state (entry : Entry) (remembered : Bool) (today : Date) :
    Option Entry := do
  let e1 ←
    if remembered then do
      let s ← getIntField entry "success_streak" 0
      let e := setVal entry "success_streak" (.vint (s + 1))
      let iv ← getIntField e "interval_days" 1
      pure (setVal e "interval_days" (.vint (max 1 (min 30 (iv * 2)))))
    else
      pure (setVal (setVal entry "success_streak" (.vint 0)) "interval_days" (.vint 1))
  let iv2 ←
    match lookupVal e1 "interval_days" with
    | some (.vint n) => some n
    | _ => none
  let e2 := setVal e1 "next_review" (.vstr (formatDate (addDays today iv2)))
  let rc ← getIntField e2 "review_count" 0
  pure (setVal e2 "review_count" (.vint (rc + 1)))

/-! ### Basic lemmas about the dict model -/

theorem lookupVal_setVal_self (e : Entry) (k : String) (v : Val) :
    lookupVal (setVal e k v) k = some v := by
  induction e with
  | nil => simp [setVal, lookupVal]
  | cons p rest ih =>
    by_cases h : p.1 = k
    · simp [setVal, lookupVal, h]
    · simp [setVal, lookupVal, h, ih]

theorem lookupVal_setVal_ne (e : Entry) (k k' : String) (v : Val) (h : k' ≠ k) :
    lookupVal (setVal e k v) k' = lookupVal e k' := by
  induction e with
  | nil => simp [setVal, lookupVal, h, Ne.symm h]
  | cons p rest ih =>
    by_cases hp : p.1 = k
    · simp [setVal, lookupVal, hp, h, Ne.symm h]
    · by_cases hp' : p.1 = k'
      · simp [setVal, lookupVal, hp, hp', h, Ne.symm h]
      · simp [setVal, lookupVal, hp, hp', ih, h, Ne.symm h]

theorem hasKey_setVal_self (e : Entry) (k : String) (v : Val) :
    hasKey (setVal e k v) k = true := by
  simp [hasKey, lookupVal_setVal_self]

theorem hasKey_setVal_ne (e : Entry) (k k' : String) (v : Val) (h : k' ≠ k) :
    hasKey (setVal e k v) k' = hasKey e k' := by
  simp [hasKey, lookupVal_setVal_ne e k k' v h]

/-- Two entries differing under one key are different lists. -/
theorem ne_of_lookupVal_ne {e e' : Entry} {k : String}
    (h : lookupVal e k ≠ lookupVal e' k) : e ≠ e' := by
  intro he; exact h (he ▸ rfl)

/-! ### `update_review_state`: shape lemmas -/

/-- The field `k` holds the integer `n`, or is absent and `n` is the
`entry.get` default `dflt`. -/
def IntField (e : Entry) (k : String) (dflt n : Int) : Prop :=
  lookupVal e k = some (.vint n) ∨ (lookupVal e k = none ∧ n = dflt)

theorem getIntField_eq_of {e : Entry} {k : String} {dflt n : Int}
    (h : IntField e k dflt n) : getIntField e k dflt = some n := by
  rcases h with h | ⟨h, rfl⟩ <;> simp [getIntField, h]

theorem getIntField_congr {e e' : Entry} (k : String) (dflt : Int)
    (h : lookupVal e' k = lookupVal e k) :
    getIntField e' k dflt = getIntField e k dflt := by
  simp [getIntField, h]

/-- Unfolded form of a successful (`remembered = True`) update. -/
theorem update_true_eq (e : Entry) (today : Date) {s iv rc : Int}
    (hs : IntField e "success_streak" 0 s)
    (hiv : IntField e "interval_days" 1 iv)
    (hrc : IntField e "review_count" 0 rc) :
    update_review_state e true today =
      some (setVal (setVal (setVal (setVal e "success_streak" (.vint (s + 1)))
        "interval_days" (.vint (max 1 (min 30 (iv * 2)))))
        "next_review" (.vstr (formatDate (addDays today (max 1 (min 30 (iv * 2)))))))
        "review_count" (.vint (rc + 1))) := by
  have h1 : getIntField e "success_streak" 0 = some s := getIntField_eq_of hs
  have h2 : getIntField (setVal e "success_streak" (.vint (s + 1))) "interval_days" 1
      = some iv := by
    rw [getIntField_congr _ _ (lookupVal_setVal_ne _ _ _ _ (by decide))]
    exact getIntField_eq_of hiv
  have h3 : lookupVal (setVal (setVal e "success_streak" (.vint (s + 1)))
      "interval_days" (.vint (max 1 (min 30 (iv * 2))))) "interval_days"
      = some (.vint (max 1 (min 30 (iv * 2)))) := lookupVal_setVal_self _ _ _
  have h4 : getIntField (setVal (setVal (setVal e "success_streak" (.vint (s + 1)))
      "interval_days" (.vint (max 1 (min 30 (iv * 2)))))
      "next_review" (.vstr (formatDate (addDays today (max 1 (min 30 (iv * 2)))))))
      "review_count" 0 = some rc := by
    rw [getIntField_congr _ _ (lookupVal_setVal_ne _ _ _ _ (by decide))]
    rw [getIntField_congr _ _ (lookupVal_setVal_ne _ _ _ _ (by decide))]
    rw [getIntField_congr _ _ (lookupVal_setVal_ne _ _ _ _ (by decide))]
    exact getIntField_eq_of hrc
  simp [update_review_state, h1, h2, h3, h4]

/-- Unfolded form of a failed (`remembered = False`) update. -/
theorem update_false_eq (e : Entry) (today : Date) {rc : Int}
    (hrc : IntField e "review_count" 0 rc) :
    update_review_state e false today =
      some (setVal (setVal (setVal (setVal e "success_streak" (.vint 0))
        "interval_days" (.vint 1))
        "next_review" (.vstr (formatDate (addDays today 1))))
        "review_count" (.vint (rc + 1))) := by
  have h3 : lookupVal (setVal (setVal e "success_streak" (.vint 0))
      "interval_days" (.vint 1)) "interval_days" = some (.vint 1) :=
    lookupVal_setVal_self _ _ _
  have h4 : getIntField (setVal (setVal (setVal e "success_streak" (.vint 0))
      "interval_days" (.vint 1))
      "next_review" (.vstr (formatDate (addDays today 1))))
      "review_count" 0 = some rc := by
    rw [getIntField_congr _ _ (lookupVal_setVal_ne _ _ _ _ (by decide))]
    rw [getIntField_congr _ _ (lookupVal_setVal_ne _ _ _ _ (by decide))]
    rw [getIntField_congr _ _ (lookupVal_setVal_ne _ _ _ _ (by decide))]
    exact getIntField_eq_of hrc
  simp [update_review_state, h3, h4]

/-- `n` successive `remembered=True` reviews starting from `e`. -/
def iterUpdateTrue (e : Entry) (today : Date) : Nat → Option Entry
  | 0 => some e
  | n + 1 => (iterUpdateTrue e today n).bind (update_review_state · true today)

/-- C1: for every entry (with integer-or-absent counters, as `normalize_entries`
guarantees), `update_review_state` with `remembered=true` increments
`success_streak` by 1 and sets `interval_days` to `clamp(old * 2, 1, 30)` =
`max 1 (min 30 (old * 2))`; starting from `interval_days = 1`, five consecutive
successes produce the interval sequence 2, 4, 8, 16, 30 (capped, not 32). -/
theorem update_true_doubles_and_caps (e : Entry) (today : Date) {s iv rc : Int}
    (hs : IntField e "success_streak" 0 s)
    (hiv : IntField e "interval_days" 1 iv)
    (hrc : IntField e "review_count" 0 rc) :
    (∃ e', update_review_state e true today = some e' ∧
        lookupVal e' "success_streak" = some (.vint (s + 1)) ∧
        lookupVal e' "interval_days" = some (.vint (max 1 (min 30 (iv * 2))))) ∧
    (List.range 5).map (fun i =>
        (iterUpdateTrue [("interval_days", Val.vint 1), ("success_streak", Val.vint 0)]
            ⟨2024, 1, 1⟩ (i + 1)).bind (lookupVal · "interval_days")) =
      [some (.vint 2), some (.vint 4), some (.vint 8), some (.vint 16), some (.vint 30)] := by
  constructor
  · refine ⟨_, update_true_eq e today hs hiv hrc, ?_, ?_⟩
    · rw [lookupVal_setVal_ne _ _ _ _ (by decide), lookupVal_setVal_ne _ _ _ _ (by decide),
        lookupVal_setVal_ne _ _ _ _ (by decide), lookupVal_setVal_self]
    · rw [lookupVal_setVal_ne _ _ _ _ (by decide), lookupVal_setVal_ne _ _ _ _ (by decide),
        lookupVal_setVal_self]
  · decide

/-- Witness for C1 at a concrete entry. -/
theorem update_true_doubles_and_caps_witness :
    (∃ e', update_review_state
        [("success_streak", Val.vint 2), ("interval_days", Val.vint 4), ("review_count", Val.vint 6)]
        true ⟨2024, 1, 1⟩ = some e' ∧
        lookupVal e' "success_streak" = some (.vint (2 + 1)) ∧
        lookupVal e' "interval_days" = some (.vint (max 1 (min 30 (4 * 2))))) ∧
    (List.range 5).map (fun i =>
        (iterUpdateTrue [("interval_days", Val.vint 1), ("success_streak", Val.vint 0)]
            ⟨2024, 1, 1⟩ (i + 1)).bind (lookupVal · "interval_days")) =
      [some (.vint 2), some (.vint 4), some (.vint 8), some (.vint 16), some (.vint 30)] :=
  update_true_doubles_and_caps _ _ (Or.inl rfl) (Or.inl rfl) (Or.inl rfl)

/-- C2: an entry with nonzero `success_streak` and `interval_days > 1`, after one
`remembered=false` outcome, has `success_streak = 0`, `interval_days = 1` and
`next_review = today + 1 day`. -/
theorem update_false_resets (e : Entry) (today : Date) {s iv rc : Int}
    (hs : lookupVal e "success_streak" = some (.vint s)) (hs0 : s ≠ 0)
    (hiv : lookupVal e "interval_days" = some (.vint iv)) (hiv1 : 1 < iv)
    (hrc : IntField e "review_count" 0 rc) :
    ∃ e', update_review_state e false today = some e' ∧
      lookupVal e' "success_streak" = some (.vint 0) ∧
      lookupVal e' "interval_days" = some (.vint 1) ∧
      lookupVal e' "next_review" = some (.vstr (formatDate (addDays today 1))) := by
  refine ⟨_, update_false_eq e today hrc, ?_, ?_, ?_⟩
  · rw [lookupVal_setVal_ne _ _ _ _ (by decide), lookupVal_setVal_ne _ _ _ _ (by decide),
      lookupVal_setVal_ne _ _ _ _ (by decide), lookupVal_setVal_self]
  · rw [lookupVal_setVal_ne _ _ _ _ (by decide), lookupVal_setVal_ne _ _ _ _ (by decide),
      lookupVal_setVal_self]
  · rw [lookupVal_setVal_ne _ _ _ _ (by decide), lookupVal_setVal_self]

/-- Witness for C2 at a concrete entry. -/
theorem update_false_resets_witness :
    ∃ e', update_review_state
        [("success_streak", Val.vint 3), ("interval_days", Val.vint 8), ("review_count", Val.vint 5)]
        false ⟨2024, 1, 1⟩ = some e' ∧
      lookupVal e' "success_streak" = some (.vint 0) ∧
      lookupVal e' "interval_days" = some (.vint 1) ∧
      lookupVal e' "next_review" = some (.vstr (formatDate (addDays ⟨2024, 1, 1⟩ 1))) :=
  update_false_resets _ _ rfl (by decide) rfl (by decide) (Or.inl rfl)

/-- C3: for both outcomes, one `update_review_state` call sets `next_review` to
`today` plus the new (post-update) `interval_days` and increments
`review_count` by exactly 1. -/
theorem update_sets_next_review_and_count (e : Entry) (remembered : Bool) (today : Date)
    {s iv rc : Int}
    (hs : IntField e "success_streak" 0 s)
    (hiv : IntField e "interval_days" 1 iv)
    (hrc : IntField e "review_count" 0 rc) :
    ∃ e' niv, update_review_state e remembered today = some e' ∧
      lookupVal e' "interval_days" = some (.vint niv) ∧
      lookupVal e' "next_review" = some (.vstr (formatDate (addDays today niv))) ∧
      lookupVal e' "review_count" = some (.vint (rc + 1)) := by
  cases remembered
  · refine ⟨_, 1, update_false_eq e today hrc, ?_, ?_, ?_⟩
    · rw [lookupVal_setVal_ne _ _ _ _ (by decide), lookupVal_setVal_ne _ _ _ _ (by decide),
        lookupVal_setVal_self]
    · rw [lookupVal_setVal_ne _ _ _ _ (by decide), lookupVal_setVal_self]
    · rw [lookupVal_setVal_self]
  · refine ⟨_, max 1 (min 30 (iv * 2)), update_true_eq e today hs hiv hrc, ?_, ?_, ?_⟩
    · rw [lookupVal_setVal_ne _ _ _ _ (by decide), lookupVal_setVal_ne _ _ _ _ (by decide),
        lookupVal_setVal_self]
    · rw [lookupVal_setVal_ne _ _ _ _ (by decide), lookupVal_setVal_self]
    · rw [lookupVal_setVal_self]

/-- Witness for C3 at a concrete entry. -/
theorem update_sets_next_review_and_count_witness :
    ∃ e' niv, update_review_state
        [("success_streak", Val.vint 1), ("interval_days", Val.vint 2)]
        true ⟨2024, 2, 28⟩ = some e' ∧
      lookupVal e' "interval_days" = some (.vint niv) ∧
      lookupVal e' "next_review" = some (.vstr (formatDate (addDays ⟨2024, 2, 28⟩ niv))) ∧
      lookupVal e' "review_count" = some (.vint (0 + 1)) :=
  update_sets_next_review_and_count _ true _ (Or.inl rfl) (Or.inl rfl) (Or.inr ⟨rfl, rfl⟩)

/-! ### `normalize_entries`: lemmas -/

/-- The seven schema fields `normalize_entries` fills. -/
def schemaKeys : List String :=
  ["id", "created_at", "interval_days", "success_streak", "context",
   "next_review", "review_count"]

theorem lookupVal_eq_none {e : Entry} {k : String} (h : hasKey e k = false) :
    lookupVal e k = none := by
  cases hl : lookupVal e k with
  | none => rfl
  | some v => rw [hasKey, hl] at h; cases h

theorem lookupVal_append (a b : Entry) (k : String) :
    lookupVal (a ++ b) k =
      match lookupVal a k with
      | some v => some v
      | none => lookupVal b k := by
  induction a with
  | nil => simp [lookupVal]
  | cons p rest ih =>
    by_cases h : p.1 = k
    · simp [lookupVal, h]
    · simp [lookupVal, h, ih]

theorem hasKey_append (a b : Entry) (k : String) :
    hasKey (a ++ b) k = (hasKey a k || hasKey b k) := by
  rw [hasKey, hasKey, hasKey, lookupVal_append]
  cases h : lookupVal a k <;> simp [h]

theorem setVal_append_of_not {a : Entry} {k : String} (v : Val)
    (h : hasKey a k = false) : setVal a k v = a ++ [(k, v)] := by
  induction a with
  | nil => simp [setVal]
  | cons p rest ih =>
    by_cases hp : p.1 = k
    · rw [hasKey, lookupVal, if_pos hp] at h; cases h
    · rw [hasKey, lookupVal, if_neg hp] at h
      simp [setVal, hp, ih h]

theorem ensureField_fst_hasKey_self (k : String) (dflt : Entry → Val) (st : Entry × Bool) :
    hasKey (ensureField k dflt st).1 k = true := by
  by_cases h : hasKey st.1 k
  · simpa [ensureField, h]
  · simp [ensureField, h, hasKey_setVal_self]

theorem ensureField_hasKey_mono (k k' : String) (dflt : Entry → Val) (st : Entry × Bool)
    (h : hasKey st.1 k' = true) : hasKey (ensureField k dflt st).1 k' = true := by
  by_cases hk : hasKey st.1 k
  · simpa [ensureField, hk]
  · by_cases hkk : k' = k
    · subst hkk; simp [ensureField, hk, hasKey_setVal_self]
    · simp [ensureField, hk, hasKey_setVal_ne _ _ _ _ hkk, h]

theorem ensureField_lookup_preserve (k k' : String) (dflt : Entry → Val) (st : Entry × Bool)
    {v : Val} (h : lookupVal st.1 k' = some v) :
    lookupVal (ensureField k dflt st).1 k' = some v := by
  by_cases hk : hasKey st.1 k
  · simpa [ensureField, hk]
  · by_cases hkk : k' = k
    · subst hkk; rw [lookupVal_eq_none (Bool.eq_false_iff.mpr hk)] at h; cases h
    · simp [ensureField, hk, lookupVal_setVal_ne _ _ _ _ hkk, h]

theorem ensureField_lookup_ne (k k' : String) (dflt : Entry → Val) (st : Entry × Bool)
    (hkk : k' ≠ k) :
    lookupVal (ensureField k dflt st).1 k' = lookupVal st.1 k' := by
  by_cases hk : hasKey st.1 k
  · simp [ensureField, hk]
  · simp [ensureField, hk, lookupVal_setVal_ne _ _ _ _ hkk]

theorem ensureField_hasKey_ne (k k' : String) (dflt : Entry → Val) (st : Entry × Bool)
    (hkk : k' ≠ k) : hasKey (ensureField k dflt st).1 k' = hasKey st.1 k' := by
  rw [hasKey, ensureField_lookup_ne k k' dflt st hkk, hasKey]

theorem ensureField_of_hasKey (k : String) (dflt : Entry → Val) (st : Entry × Bool)
    (h : hasKey st.1 k = true) : ensureField k dflt st = st := by
  simp [ensureField, h]

theorem ensureField_eq_of_snd_false (k : String) (dflt : Entry → Val) (st : Entry × Bool)
    (h : (ensureField k dflt st).2 = false) : ensureField k dflt st = st := by
  by_cases hk : hasKey st.1 k
  · simp [ensureField, hk]
  · simp [ensureField, hk] at h

theorem normalizeEntry_hasKey (gid today : String) (e : Entry) (k : String)
    (hk : k ∈ schemaKeys) : hasKey (normalizeEntry gid today e).1 k = true := by
  simp only [schemaKeys, List.mem_cons, List.not_mem_nil, or_false] at hk
  simp only [normalizeEntry]
  rcases hk with rfl | rfl | rfl | rfl | rfl | rfl | rfl
  · apply ensureField_hasKey_mono; apply ensureField_hasKey_mono; apply ensureField_hasKey_mono
    apply ensureField_hasKey_mono; apply ensureField_hasKey_mono; apply ensureField_hasKey_mono
    exact ensureField_fst_hasKey_self _ _ _
  · apply ensureField_hasKey_mono; apply ensureField_hasKey_mono; apply ensureField_hasKey_mono
    apply ensureField_hasKey_mono; apply ensureField_hasKey_mono
    exact ensureField_fst_hasKey_self _ _ _
  · apply ensureField_hasKey_mono; apply ensureField_hasKey_mono; apply ensureField_hasKey_mono
    apply ensureField_hasKey_mono
    exact ensureField_fst_hasKey_self _ _ _
  · apply ensureField_hasKey_mono; apply ensureField_hasKey_mono; apply ensureField_hasKey_mono
    exact ensureField_fst_hasKey_self _ _ _
  · apply ensureField_hasKey_mono; apply ensureField_hasKey_mono
    exact ensureField_fst_hasKey_self _ _ _
  · apply ensureField_hasKey_mono
    exact ensureField_fst_hasKey_self _ _ _
  · exact ensureField_fst_hasKey_self _ _ _

theorem normalizeEntry_lookup_preserve (gid today : String) (e : Entry) (k : String)
    {v : Val} (h : lookupVal e k = some v) :
    lookupVal (normalizeEntry gid today e).1 k = some v := by
  simp only [normalizeEntry]
  repeat apply ensureField_lookup_preserve
  exact h

theorem normalizeEntry_lookup_not_schema (gid today : String) (e : Entry) (k : String)
    (hk : k ∉ schemaKeys) : lookupVal (normalizeEntry gid today e).1 k = lookupVal e k := by
  simp only [schemaKeys, List.mem_cons, List.not_mem_nil, or_false, not_or] at hk
  obtain ⟨h1, h2, h3, h4, h5, h6, h7⟩ := hk
  simp only [normalizeEntry]
  rw [ensureField_lookup_ne _ _ _ _ h7, ensureField_lookup_ne _ _ _ _ h6,
    ensureField_lookup_ne _ _ _ _ h5, ensureField_lookup_ne _ _ _ _ h4,
    ensureField_lookup_ne _ _ _ _ h3, ensureField_lookup_ne _ _ _ _ h2,
    ensureField_lookup_ne _ _ _ _ h1]

theorem normalizeEntry_snd_false (gid today : String) (e : Entry)
    (h : (normalizeEntry gid today e).2 = false) : (normalizeEntry gid today e).1 = e := by
  simp only [normalizeEntry] at h ⊢
  have h7 := ensureField_eq_of_snd_false _ _ _ h
  rw [h7] at h ⊢
  have h6 := ensureField_eq_of_snd_false _ _ _ h
  rw [h6] at h ⊢
  have h5 := ensureField_eq_of_snd_false _ _ _ h
  rw [h5] at h ⊢
  have h4 := ensureField_eq_of_snd_false _ _ _ h
  rw [h4] at h ⊢
  have h3 := ensureField_eq_of_snd_false _ _ _ h
  rw [h3] at h ⊢
  have h2 := ensureField_eq_of_snd_false _ _ _ h
  rw [h2] at h ⊢
  have h1 := ensureField_eq_of_snd_false _ _ _ h
  rw [h1]

theorem normalizeEntry_of_allKeys (gid today : String) (e : Entry)
    (h : ∀ k ∈ schemaKeys, hasKey e k = true) :
    normalizeEntry gid today e = (e, false) := by
  simp only [normalizeEntry]
  rw [ensureField_of_hasKey "id" (fun _ => Val.vstr gid) (e, false) (h "id" (by decide))]
  rw [ensureField_of_hasKey "created_at" (fun _ => Val.vstr today) (e, false)
    (h "created_at" (by decide))]
  rw [ensureField_of_hasKey "interval_days" (fun _ => Val.vint 1) (e, false)
    (h "interval_days" (by decide))]
  rw [ensureField_of_hasKey "success_streak" (fun _ => Val.vint 0) (e, false)
    (h "success_streak" (by decide))]
  rw [ensureField_of_hasKey "context" (fun _ => Val.vstr "") (e, false)
    (h "context" (by decide))]
  rw [ensureField_of_hasKey "next_review"
    (fun e1 => (lookupVal e1 "created_at").getD (Val.vstr today)) (e, false)
    (h "next_review" (by decide))]
  rw [ensureField_of_hasKey "review_count" (fun _ => Val.vint 0) (e, false)
    (h "review_count" (by decide))]

theorem normalizeEntry_snd_true (gid today : String) (e : Entry)
    (h : (normalizeEntry gid today e).2 = true) : ∃ k ∈ schemaKeys, hasKey e k = false := by
  by_contra hc
  push_neg at hc
  have hall : ∀ k ∈ schemaKeys, hasKey e k = true := by
    intro k hk
    have := hc k hk
    simpa using this
  rw [normalizeEntry_of_allKeys gid today e hall] at h
  cases h

theorem normalizeEntry_changed_iff (gid today : String) (e : Entry) :
    (normalizeEntry gid today e).2 = true ↔ (normalizeEntry gid today e).1 ≠ e := by
  constructor
  · intro h
    obtain ⟨k, hk, habs⟩ := normalizeEntry_snd_true gid today e h
    refine @ne_of_lookupVal_ne _ e k ?_
    rw [lookupVal_eq_none habs]
    have h1 : hasKey (normalizeEntry gid today e).1 k = true :=
      normalizeEntry_hasKey gid today e k hk
    intro hcon
    rw [hasKey, hcon] at h1
    cases h1
  · intro h
    by_contra hfl
    exact h (normalizeEntry_snd_false gid today e (by simpa using hfl))

theorem normalizeEntry_of_noKeys (gid today : String) (e : Entry)
    (h : ∀ k ∈ schemaKeys, hasKey e k = false) :
    normalizeEntry gid today e =
      (e ++ [("id", Val.vstr gid), ("created_at", Val.vstr today),
        ("interval_days", Val.vint 1), ("success_streak", Val.vint 0),
        ("context", Val.vstr ""), ("next_review", Val.vstr today),
        ("review_count", Val.vint 0)], true) := by
  have h1 := h "id" (by decide)
  have h2 := h "created_at" (by decide)
  have h3 := h "interval_days" (by decide)
  have h4 := h "success_streak" (by decide)
  have h5 := h "context" (by decide)
  have h6 := h "next_review" (by decide)
  have h7 := h "review_count" (by decide)
  have ha1 : hasKey ((e, false) : Entry × Bool).1 "id" = false := h1
  have e1 : ensureField "id" (fun _ => Val.vstr gid) (e, false)
      = (e ++ [("id", Val.vstr gid)], true) := by
    simp [ensureField, ha1, setVal_append_of_not _ h1]
  have ha2 : hasKey (e ++ [("id", Val.vstr gid)]) "created_at" = false := by
    rw [hasKey_append, h2]; simp [hasKey, lookupVal]
  have e2 : ensureField "created_at" (fun _ => Val.vstr today)
      (e ++ [("id", Val.vstr gid)], true)
      = (e ++ [("id", Val.vstr gid), ("created_at", Val.vstr today)], true) := by
    simp [ensureField, ha2, setVal_append_of_not _ ha2]
  have ha3 : hasKey (e ++ [("id", Val.vstr gid), ("created_at", Val.vstr today)])
      "interval_days" = false := by
    rw [hasKey_append, h3]; simp [hasKey, lookupVal]
  have e3 : ensureField "interval_days" (fun _ => Val.vint 1)
      (e ++ [("id", Val.vstr gid), ("created_at", Val.vstr today)], true)
      = (e ++ [("id", Val.vstr gid), ("created_at", Val.vstr today),
          ("interval_days", Val.vint 1)], true) := by
    simp [ensureField, ha3, setVal_append_of_not _ ha3]
  have ha4 : hasKey (e ++ [("id", Val.vstr gid), ("created_at", Val.vstr today),
      ("interval_days", Val.vint 1)]) "success_streak" = false := by
    rw [hasKey_append, h4]; simp [hasKey, lookupVal]
  have e4 : ensureField "success_streak" (fun _ => Val.vint 0)
      (e ++ [("id", Val.vstr gid), ("created_at", Val.vstr today),
        ("interval_days", Val.vint 1)], true)
      = (e ++ [("id", Val.vstr gid), ("created_at", Val.vstr today),
          ("interval_days", Val.vint 1), ("success_streak", Val.vint 0)], true) := by
    simp [ensureField, ha4, setVal_append_of_not _ ha4]
  have ha5 : hasKey (e ++ [("id", Val.vstr gid), ("created_at", Val.vstr today),
      ("interval_days", Val.vint 1), ("success_streak", Val.vint 0)]) "context" = false := by
    rw [hasKey_append, h5]; simp [hasKey, lookupVal]
  have e5 : ensureField "context" (fun _ => Val.vstr "")
      (e ++ [("id", Val.vstr gid), ("created_at", Val.vstr today),
        ("interval_days", Val.vint 1), ("success_streak", Val.vint 0)], true)
      = (e ++ [("id", Val.vstr gid), ("created_at", Val.vstr today),
          ("interval_days", Val.vint 1), ("success_streak", Val.vint 0),
          ("context", Val.vstr "")], true) := by
    simp [ensureField, ha5, setVal_append_of_not _ ha5]
  have ha6 : hasKey (e ++ [("id", Val.vstr gid), ("created_at", Val.vstr today),
      ("interval_days", Val.vint 1), ("success_streak", Val.vint 0),
      ("context", Val.vstr "")]) "next_review" = false := by
    rw [hasKey_append, h6]; simp [hasKey, lookupVal]
  have hl6 : lookupVal (e ++ [("id", Val.vstr gid), ("created_at", Val.vstr today),
      ("interval_days", Val.vint 1), ("success_streak", Val.vint 0),
      ("context", Val.vstr "")]) "created_at" = some (Val.vstr today) := by
    rw [lookupVal_append, lookupVal_eq_none h2]
    simp [lookupVal]
  have e6 : ensureField "next_review"
      (fun e1 => (lookupVal e1 "created_at").getD (Val.vstr today))
      (e ++ [("id", Val.vstr gid), ("created_at", Val.vstr today),
        ("interval_days", Val.vint 1), ("success_streak", Val.vint 0),
        ("context", Val.vstr "")], true)
      = (e ++ [("id", Val.vstr gid), ("created_at", Val.vstr today),
          ("interval_days", Val.vint 1), ("success_streak", Val.vint 0),
          ("context", Val.vstr ""), ("next_review", Val.vstr today)], true) := by
    simp [ensureField, ha6, setVal_append_of_not _ ha6, hl6]
  have ha7 : hasKey (e ++ [("id", Val.vstr gid), ("created_at", Val.vstr today),
      ("interval_days", Val.vint 1), ("success_streak", Val.vint 0),
      ("context", Val.vstr ""), ("next_review", Val.vstr today)]) "review_count" = false := by
    rw [hasKey_append, h7]; simp [hasKey, lookupVal]
  have e7 : ensureField "review_count" (fun _ => Val.vint 0)
      (e ++ [("id", Val.vstr gid), ("created_at", Val.vstr today),
        ("interval_days", Val.vint 1), ("success_streak", Val.vint 0),
        ("context", Val.vstr ""), ("next_review", Val.vstr today)], true)
      = (e ++ [("id", Val.vstr gid), ("created_at", Val.vstr today),
          ("interval_days", Val.vint 1), ("success_streak", Val.vint 0),
          ("context", Val.vstr ""), ("next_review", Val.vstr today),
          ("review_count", Val.vint 0)], true) := by
    simp [ensureField, ha7, setVal_append_of_not _ ha7]
  simp only [normalizeEntry]
  rw [e1, e2, e3, e4, e5, e6, e7]

theorem normalizeGo_changed_iff (ids : Nat → String) (today : String) (es : List Entry) :
    ∀ n, ((normalizeGo ids today n es).2.1 = true ↔ (normalizeGo ids today n es).1 ≠ es) := by
  induction es with
  | nil => intro n; simp [normalizeGo]
  | cons e rest ih =>
    intro n
    simp only [normalizeGo]
    rw [Bool.or_eq_true, normalizeEntry_changed_iff, ih]
    constructor
    · intro h hc
      rw [List.cons_eq_cons] at hc
      rcases h with h | h
      · exact h hc.1
      · exact h hc.2
    · intro h
      by_cases h1 : (normalizeEntry (ids n) today e).1 = e
      · refine Or.inr fun h2 => h ?_
        rw [h1, h2]
      · exact Or.inl h1

theorem normalizeGo_result_keys (ids : Nat → String) (today : String) (es : List Entry) :
    ∀ n, ∀ e' ∈ (normalizeGo ids today n es).1, ∀ k ∈ schemaKeys, hasKey e' k = true := by
  induction es with
  | nil => intro n e' he'; simp [normalizeGo] at he'
  | cons e rest ih =>
    intro n e' he' k hk
    simp only [normalizeGo, List.mem_cons] at he'
    rcases he' with rfl | he'
    · exact normalizeEntry_hasKey _ _ _ _ hk
    · exact ih _ _ he' k hk

theorem normalizeGo_of_normalized (ids : Nat → String) (today : String) (es : List Entry)
    (h : ∀ e ∈ es, ∀ k ∈ schemaKeys, hasKey e k = true) :
    ∀ n, normalizeGo ids today n es = (es, false, n) := by
  induction es with
  | nil => intro n; rfl
  | cons e rest ih =>
    intro n
    have he := h e (by simp)
    have hid : hasKey e "id" = true := he "id" (by decide)
    have hrest := ih (fun e1 he1 => h e1 (List.mem_cons_of_mem _ he1))
    simp [normalizeGo, normalizeEntry_of_allKeys _ _ _ he, hid, hrest]

theorem normalizeGo_frame (ids : Nat → String) (today : String) (es : List Entry) :
    ∀ n, List.Forall₂ (fun e e' =>
      (∀ k v, lookupVal e k = some v → lookupVal e' k = some v) ∧
      (∀ k, k ∉ schemaKeys → lookupVal e' k = lookupVal e k))
      es (normalizeGo ids today n es).1 := by
  induction es with
  | nil => intro n; simp [normalizeGo]
  | cons e rest ih =>
    intro n
    simp only [normalizeGo]
    exact List.Forall₂.cons
      ⟨fun k v h => normalizeEntry_lookup_preserve _ _ _ _ h,
       fun k hk => normalizeEntry_lookup_not_schema _ _ _ _ hk⟩ (ih _)

/-- C7: `normalize_entries` returns `true` iff it modified at least one
record, and it is idempotent: applied (with any uuid supply and current
date) to a collection it has already normalized, it returns `false` and
leaves every record byte-identical. -/
theorem normalize_entries_changed_iff_idem (ids ids2 : Nat → String)
    (today today2 : String) (es : List Entry) :
    ((normalize_entries ids today es).2 = true ↔ (normalize_entries ids today es).1 ≠ es) ∧
    normalize_entries ids2 today2 (normalize_entries ids today es).1 =
      ((normalize_entries ids today es).1, false) := by
  constructor
  · simpa only [normalize_entries] using normalizeGo_changed_iff ids today es 0
  · simp only [normalize_entries]
    rw [normalizeGo_of_normalized ids2 today2 _ (normalizeGo_result_keys ids today es 0) 0]

/-- C10: `normalize_entries` never overwrites: every key present in a record
before normalization (whatever its value) still holds the same value after,
and keys outside the seven schema fields are untouched entirely. -/
theorem normalize_entries_frame (ids : Nat → String) (today : String) (es : List Entry) :
    List.Forall₂ (fun e e' =>
      (∀ k v, lookupVal e k = some v → lookupVal e' k = some v) ∧
      (∀ k, k ∉ schemaKeys → lookupVal e' k = lookupVal e k))
      es (normalize_entries ids today es).1 := by
  simpa only [normalize_entries] using normalizeGo_frame ids today es 0

/-- C8: a record with only the `word` and `definition` fields, after
`normalize_entries`, has `interval_days = 1`, `success_streak = 0`,
`review_count = 0`, `context = ""`, the freshly drawn id, `created_at` the
current date, and `next_review` equal to its (post-repair) `created_at`. -/
theorem normalize_minimal_record_defaults (ids : Nat → String) (today : String) (e : Entry)
    (hw : hasKey e "word" = true) (hd : hasKey e "definition" = true)
    (honly : ∀ k, hasKey e k = true → k = "word" ∨ k = "definition") :
    ∃ e', (normalize_entries ids today [e]).1 = [e'] ∧
      lookupVal e' "interval_days" = some (.vint 1) ∧
      lookupVal e' "success_streak" = some (.vint 0) ∧
      lookupVal e' "review_count" = some (.vint 0) ∧
      lookupVal e' "context" = some (.vstr "") ∧
      lookupVal e' "id" = some (.vstr (ids 0)) ∧
      lookupVal e' "created_at" = some (.vstr today) ∧
      lookupVal e' "next_review" = lookupVal e' "created_at" := by
  have habs : ∀ k ∈ schemaKeys, hasKey e k = false := by
    intro k hk
    by_contra hc
    rcases honly k (by simpa using hc) with rfl | rfl <;> simp [schemaKeys] at hk
  have hshape := normalizeEntry_of_noKeys (ids 0) today e habs
  refine ⟨(normalizeEntry (ids 0) today e).1, ?_, ?_, ?_, ?_, ?_, ?_, ?_, ?_⟩ <;>
    [skip;
     rw [hshape, lookupVal_append, lookupVal_eq_none (habs "interval_days" (by decide))];
     rw [hshape, lookupVal_append, lookupVal_eq_none (habs "success_streak" (by decide))];
     rw [hshape, lookupVal_append, lookupVal_eq_none (habs "review_count" (by decide))];
     rw [hshape, lookupVal_append, lookupVal_eq_none (habs "context" (by decide))];
     rw [hshape, lookupVal_append, lookupVal_eq_none (habs "id" (by decide))];
     rw [hshape, lookupVal_append, lookupVal_eq_none (habs "created_at" (by decide))];
     rw [hshape, lookupVal_append, lookupVal_append,
       lookupVal_eq_none (habs "next_review" (by decide)),
       lookupVal_eq_none (habs "created_at" (by decide))]]
  · simp [normalize_entries, normalizeGo]
  all_goals simp [lookupVal]

/-- Witness for C8 at a concrete two-field record. -/
theorem normalize_minimal_record_defaults_witness :
    ∃ e', (normalize_entries (fun _ => "uuid-0") "2024-01-01"
        [[("word", Val.vstr "ubiquitous"), ("definition", Val.vstr "everywhere")]]).1 = [e'] ∧
      lookupVal e' "interval_days" = some (.vint 1) ∧
      lookupVal e' "success_streak" = some (.vint 0) ∧
      lookupVal e' "review_count" = some (.vint 0) ∧
      lookupVal e' "context" = some (.vstr "") ∧
      lookupVal e' "id" = some (.vstr ((fun _ => "uuid-0") 0)) ∧
      lookupVal e' "created_at" = some (.vstr "2024-01-01") ∧
      lookupVal e' "next_review" = lookupVal e' "created_at" :=
  normalize_minimal_record_defaults (fun _ => "uuid-0") "2024-01-01"
    [("word", Val.vstr "ubiquitous"), ("definition", Val.vstr "everywhere")]
    rfl rfl (by
      intro k hk
      by_cases h1 : ("word" : String) = k
      · exact Or.inl h1.symm
      · by_cases h2 : ("definition" : String) = k
        · exact Or.inr h2.symm
        · simp [hasKey, lookupVal, h1, h2] at hk)

/-! ### Order properties of the sort relations -/

instance : IsTotal Date dateLe := ⟨by intro a b; unfold dateLe; omega⟩

instance : IsTrans Date dateLe := ⟨by intro a b c; unfold dateLe; omega⟩

instance : IsRefl Date dateLe := ⟨by intro a; unfold dateLe; omega⟩

instance : IsTotal (Entry × Date) pairLe := ⟨fun p q => total_of dateLe p.2 q.2⟩

instance : IsTrans (Entry × Date) pairLe :=
  ⟨fun _ _ _ h1 h2 => trans_of dateLe h1 h2⟩

theorem tupLe_total (a b : Int × Int × String) : tupLe a b ∨ tupLe b a := by
  unfold tupLe
  rcases lt_trichotomy a.1 b.1 with h | h | h
  · exact Or.inl (Or.inl h)
  · rcases lt_trichotomy a.2.1 b.2.1 with h2 | h2 | h2
    · exact Or.inl (Or.inr ⟨h, Or.inl h2⟩)
    · rcases le_total a.2.2 b.2.2 with h3 | h3
      · exact Or.inl (Or.inr ⟨h, Or.inr ⟨h2, h3⟩⟩)
      · exact Or.inr (Or.inr ⟨h.symm, Or.inr ⟨h2.symm, h3⟩⟩)
    · exact Or.inr (Or.inr ⟨h.symm, Or.inl h2⟩)
  · exact Or.inr (Or.inl h)

theorem tupLe_trans (a b c : Int × Int × String) (h1 : tupLe a b) (h2 : tupLe b c) :
    tupLe a c := by
  unfold tupLe at h1 h2 ⊢
  rcases h1 with h1 | ⟨e1, h1⟩
  · rcases h2 with h2 | ⟨e2, h2⟩
    · exact Or.inl (h1.trans h2)
    · exact Or.inl (e2 ▸ h1)
  · rcases h2 with h2 | ⟨e2, h2⟩
    · exact Or.inl (e1.trans_lt h2)
    · refine Or.inr ⟨e1.trans e2, ?_⟩
      rcases h1 with h1 | ⟨f1, h1⟩
      · rcases h2 with h2 | ⟨f2, h2⟩
        · exact Or.inl (h1.trans h2)
        · exact Or.inl (f2 ▸ h1)
      · rcases h2 with h2 | ⟨f2, h2⟩
        · exact Or.inl (f1.trans_lt h2)
        · exact Or.inr ⟨f1.trans f2, h1.trans h2⟩

instance : IsTotal Entry entryLe := ⟨fun a b => tupLe_total (sortKey a) (sortKey b)⟩

instance : IsTrans Entry entryLe :=
  ⟨fun a b c h1 h2 => tupLe_trans (sortKey a) (sortKey b) (sortKey c) h1 h2⟩

/-! ### `get_due_entries`: lemmas -/

theorem nextReviewDate_eq_effDate {e : Entry} {asOf d : Date}
    (h : nextReviewDate e asOf = some d) : d = effDate e asOf := by
  cases hl : lookupVal e "next_review" with
  | none =>
    simp [nextReviewDate, hl] at h
    simp [effDate, hl, h]
  | some v =>
    cases v with
    | vstr s =>
      cases hp : parseDate s with
      | none =>
        simp [nextReviewDate, hl, hp] at h
        simp [effDate, hl, hp, h]
      | some d2 =>
        simp [nextReviewDate, hl, hp] at h
        simp [effDate, hl, hp, h]
    | vint n => simp [nextReviewDate, hl] at h

theorem dueAux_mem_spec (asOf : Date) :
    ∀ (entries : List Entry) (ps : List (Entry × Date)),
      dueAux asOf entries = some ps →
      ∀ p ∈ ps, p.1 ∈ entries ∧ p.2 = effDate p.1 asOf ∧ dateLe p.2 asOf := by
  intro entries
  induction entries with
  | nil =>
    intro ps h p hp
    simp only [dueAux, Option.some_inj] at h
    subst h
    simp at hp
  | cons e rest ih =>
    intro ps h p hp
    cases hnr : nextReviewDate e asOf with
    | none => simp [dueAux, hnr] at h
    | some d =>
      cases htl : dueAux asOf rest with
      | none => simp [dueAux, hnr, htl] at h
      | some tail =>
        simp only [dueAux, hnr, htl, Option.bind_eq_bind, Option.some_bind,
          Option.pure_def, Option.some_inj] at h
        subst h
        by_cases hdue : dateLe d asOf
        · rw [if_pos hdue] at hp
          rcases List.mem_cons.mp hp with rfl | hp'
          · exact ⟨List.mem_cons_self _ _, nextReviewDate_eq_effDate hnr, hdue⟩
          · obtain ⟨h1, h2, h3⟩ := ih tail htl p hp'
            exact ⟨List.mem_cons_of_mem _ h1, h2, h3⟩
        · rw [if_neg hdue] at hp
          obtain ⟨h1, h2, h3⟩ := ih tail htl p hp
          exact ⟨List.mem_cons_of_mem _ h1, h2, h3⟩

theorem dueAux_mem_of (asOf : Date) :
    ∀ (entries : List Entry) (ps : List (Entry × Date)),
      dueAux asOf entries = some ps →
      ∀ e ∈ entries, dateLe (effDate e asOf) asOf → (e, effDate e asOf) ∈ ps := by
  intro entries
  induction entries with
  | nil => intro ps h e he; simp at he
  | cons e0 rest ih =>
    intro ps h e he hdue
    cases hnr : nextReviewDate e0 asOf with
    | none => simp [dueAux, hnr] at h
    | some d =>
      cases htl : dueAux asOf rest with
      | none => simp [dueAux, hnr, htl] at h
      | some tail =>
        simp only [dueAux, hnr, htl, Option.bind_eq_bind, Option.some_bind,
          Option.pure_def, Option.some_inj] at h
        subst h
        rcases List.mem_cons.mp he with rfl | he'
        · have hd : d = effDate e asOf := nextReviewDate_eq_effDate hnr
          subst hd
          rw [if_pos hdue]
          exact List.mem_cons_self _ _
        · have hmem := ih tail htl e he' hdue
          by_cases hif : dateLe d asOf
          · rw [if_pos hif]; exact List.mem_cons_of_mem _ hmem
          · rw [if_neg hif]; exact hmem

theorem get_due_entries_some (entries : List Entry) (asOf : Date) (out : List Entry)
    (h : get_due_entries entries asOf = some out) :
    ∃ ps, dueAux asOf entries = some ps ∧
      out = (List.insertionSort pairLe ps).map Prod.fst := by
  unfold get_due_entries at h
  cases hda : dueAux asOf entries with
  | none => rw [hda] at h; cases h
  | some ps =>
    rw [hda, Option.map_some'] at h
    exact ⟨ps, rfl, (Option.some_inj.mp h).symm⟩

/-- C4: for an entry whose `next_review` parses as a date, `get_due_entries`
(when it returns) includes the entry iff that date is on or before `asOf`;
concretely as of 2024-03-05, entries dated 2024-03-05 (same day) and
2024-03-04 (one day before) are due and 2024-03-06 (one day after) is not. -/
theorem get_due_entries_boundary (entries : List Entry) (asOf : Date) (out : List Entry)
    (e : Entry) (s : String) (D : Date)
    (hout : get_due_entries entries asOf = some out)
    (hmem : e ∈ entries)
    (hnr : lookupVal e "next_review" = some (.vstr s))
    (hp : parseDate s = some D) :
    (e ∈ out ↔ dateLe D asOf) ∧
    get_due_entries
        [[("next_review", Val.vstr "2024-03-05")], [("next_review", Val.vstr "2024-03-04")],
         [("next_review", Val.vstr "2024-03-06")]] ⟨2024, 3, 5⟩ =
      some [[("next_review", Val.vstr "2024-03-04")],
        [("next_review", Val.vstr "2024-03-05")]] := by
  have heff : effDate e asOf = D := by simp [effDate, hnr, hp]
  obtain ⟨ps, hda, hout'⟩ := get_due_entries_some entries asOf out hout
  subst hout'
  constructor
  · constructor
    · intro hin
      obtain ⟨p, hpmem, hpe⟩ := List.mem_map.mp hin
      rw [List.mem_insertionSort pairLe] at hpmem
      obtain ⟨_, h2, h3⟩ := dueAux_mem_spec asOf entries ps hda p hpmem
      rw [hpe, heff] at h2
      rwa [h2] at h3
    · intro hdue
      have hm := dueAux_mem_of asOf entries ps hda e hmem (by rwa [heff])
      exact List.mem_map.mpr ⟨(e, effDate e asOf), (List.mem_insertionSort pairLe).mpr hm, rfl⟩
  · decide

/-- Witness for C4 at the same-day boundary. -/
theorem get_due_entries_boundary_witness :
    ([("next_review", Val.vstr "2024-03-05")] ∈
        [[("next_review", Val.vstr "2024-03-04")], [("next_review", Val.vstr "2024-03-05")]] ↔
      dateLe ⟨2024, 3, 5⟩ ⟨2024, 3, 5⟩) ∧
    get_due_entries
        [[("next_review", Val.vstr "2024-03-05")], [("next_review", Val.vstr "2024-03-04")],
         [("next_review", Val.vstr "2024-03-06")]] ⟨2024, 3, 5⟩ =
      some [[("next_review", Val.vstr "2024-03-04")],
        [("next_review", Val.vstr "2024-03-05")]] :=
  get_due_entries_boundary
    [[("next_review", Val.vstr "2024-03-05")], [("next_review", Val.vstr "2024-03-04")],
     [("next_review", Val.vstr "2024-03-06")]] ⟨2024, 3, 5⟩
    [[("next_review", Val.vstr "2024-03-04")], [("next_review", Val.vstr "2024-03-05")]]
    [("next_review", Val.vstr "2024-03-05")] "2024-03-05" ⟨2024, 3, 5⟩
    (by decide) (by decide) rfl (by decide)

/-- C5 as frozen is false: a non-string `next_review` is "not a parseable
YYYY-MM-DD date", yet `get_due_entries` does not include the entry — the
uncaught `TypeError` aborts the whole call, so there is no output at all. -/
theorem get_due_entries_typeerror_cex :
    ¬ ∃ out, get_due_entries [[("next_review", Val.vint 0)]] ⟨2024, 1, 1⟩ = some out ∧
      [("next_review", Val.vint 0)] ∈ out := by
  rintro ⟨out, h, _⟩
  rw [show get_due_entries [[("next_review", Val.vint 0)]] ⟨2024, 1, 1⟩ = none by decide] at h
  cases h

/-- C5 (amended to missing-or-unparseable-*string* `next_review`): such an
entry is included in the output (when the call returns) whatever `asOf` is,
and its effective date — the one it sorts by — equals `asOf`. -/
theorem get_due_entries_failopen (entries : List Entry) (asOf : Date) (out : List Entry)
    (e : Entry) (hmem : e ∈ entries)
    (hbad : lookupVal e "next_review" = none ∨
      ∃ s, lookupVal e "next_review" = some (.vstr s) ∧ parseDate s = none)
    (hout : get_due_entries entries asOf = some out) :
    e ∈ out ∧ effDate e asOf = asOf := by
  have heff : effDate e asOf = asOf := by
    rcases hbad with h | ⟨s, h, hp⟩
    · simp [effDate, h]
    · simp [effDate, h, hp]
  obtain ⟨ps, hda, hout'⟩ := get_due_entries_some entries asOf out hout
  subst hout'
  have hm := dueAux_mem_of asOf entries ps hda e hmem (by rw [heff]; exact refl_of dateLe asOf)
  exact ⟨List.mem_map.mpr ⟨(e, effDate e asOf), (List.mem_insertionSort pairLe).mpr hm, rfl⟩, heff⟩

/-- Witness for the amended C5 at a concrete malformed entry. -/
theorem get_due_entries_failopen_witness :
    [("next_review", Val.vstr "not-a-date")] ∈
      [[("next_review", Val.vstr "not-a-date")]] ∧
    effDate [("next_review", Val.vstr "not-a-date")] ⟨2031, 7, 9⟩ = ⟨2031, 7, 9⟩ :=
  get_due_entries_failopen [[("next_review", Val.vstr "not-a-date")]] ⟨2031, 7, 9⟩
    [[("next_review", Val.vstr "not-a-date")]] [("next_review", Val.vstr "not-a-date")]
    (by decide) (Or.inr ⟨"not-a-date", rfl, by decide⟩) (by decide)

/-- C6: `get_due_entries` output is ordered ascending by effective
`next_review` date; concretely, entries dated 2024-03-01, 2024-02-15 and
2024-02-20 queried as of 2024-03-05 come back in the order
[2024-02-15, 2024-02-20, 2024-03-01]. -/
theorem get_due_entries_sorted_spec :
    (∀ (entries : List Entry) (asOf : Date) (out : List Entry),
        get_due_entries entries asOf = some out →
        List.Pairwise (fun a b => dateLe (effDate a asOf) (effDate b asOf)) out) ∧
    get_due_entries [[("next_review", Val.vstr "2024-03-01")],
        [("next_review", Val.vstr "2024-02-15")],
        [("next_review", Val.vstr "2024-02-20")]] ⟨2024, 3, 5⟩ =
      some [[("next_review", Val.vstr "2024-02-15")],
        [("next_review", Val.vstr "2024-02-20")],
        [("next_review", Val.vstr "2024-03-01")]] := by
  constructor
  · intro entries asOf out hout
    obtain ⟨ps, hda, hout'⟩ := get_due_entries_some entries asOf out hout
    subst hout'
    have hsorted : List.Pairwise pairLe (List.insertionSort pairLe ps) :=
      List.sorted_insertionSort pairLe ps
    have hmemspec : ∀ p ∈ List.insertionSort pairLe ps, p.2 = effDate p.1 asOf :=
      fun p hp =>
        (dueAux_mem_spec asOf entries ps hda p ((List.mem_insertionSort pairLe).mp hp)).2.1
    have h2 : List.Pairwise (fun p q : Entry × Date =>
        dateLe (effDate p.1 asOf) (effDate q.1 asOf)) (List.insertionSort pairLe ps) := by
      refine List.Pairwise.imp_of_mem ?_ hsorted
      intro p q hp hq hle
      rw [← hmemspec p hp, ← hmemspec q hq]
      exact hle
    exact List.Pairwise.map Prod.fst (fun p q h => h) h2
  · decide

/-- C9: `sort_entries` is a pure (input-preserving) permutation, sorted
ascending by the 3-tuple (coerced `review_count`, negative `created_at`
ordinal, coerced `word`); the A/B/C scenario sorts as [B, A, C]. -/
theorem sort_entries_spec :
    (∀ entries : List Entry,
        List.Sorted entryLe (sort_entries entries) ∧
        List.Perm (sort_entries entries) entries) ∧
    sort_entries
        [[("review_count", Val.vint 0), ("created_at", Val.vstr "2024-01-01"),
          ("word", Val.vstr "zebra")],
         [("review_count", Val.vint 0), ("created_at", Val.vstr "2024-01-02"),
          ("word", Val.vstr "apple")],
         [("review_count", Val.vint 1), ("created_at", Val.vstr "2024-01-03"),
          ("word", Val.vstr "mango")]] =
      [[("review_count", Val.vint 0), ("created_at", Val.vstr "2024-01-02"),
        ("word", Val.vstr "apple")],
       [("review_count", Val.vint 0), ("created_at", Val.vstr "2024-01-01"),
        ("word", Val.vstr "zebra")],
       [("review_count", Val.vint 1), ("created_at", Val.vstr "2024-01-03"),
        ("word", Val.vstr "mango")]] := by
  constructor
  · intro entries
    exact ⟨List.sorted_insertionSort entryLe entries,
      List.perm_insertionSort entryLe entries⟩
  · decide

/-- Sanity of the date model against CPython: known ordinals, leap-day
arithmetic, zero-padded formatting, and `strptime` acceptance/rejection. -/
theorem date_model_sanity :
    toOrdinal ⟨2024, 1, 1⟩ = 738886 ∧ fromOrdinal 738886 = ⟨2024, 1, 1⟩ ∧
    addDays ⟨2024, 2, 28⟩ 1 = ⟨2024, 2, 29⟩ ∧ addDays ⟨2024, 12, 31⟩ 1 = ⟨2025, 1, 1⟩ ∧
    formatDate ⟨2024, 3, 5⟩ = "2024-03-05" ∧
    parseDate "2024-02-29" = some ⟨2024, 2, 29⟩ ∧ parseDate "2023-02-29" = none ∧
    parseDate "not-a-date" = none ∧ parseDate "2024-3-5" = some ⟨2024, 3, 5⟩ ∧
    parseDate "2024-03-05x" = none := by
  refine ⟨by decide, by decide, by decide, by decide, by decide,
    by decide, by decide, by decide, by decide, by decide⟩

end Enlearn
